import Mathlib

/-!
Shallow embedding of the process-lifecycle bootstrap core of the kuasar
runc sandboxer (`src/runc/src/main.rs`): the framed pipe channel
(`read_count` / `write_all`), the request-frame decoder of the subreaper
serving loop, the close-on-exec bookkeeping of `fork_sandbox_parent`, the
two reap loops (`sandbox_parent_handle_signals` and the SIGCHLD branch of
`handle_signals`), and the second-fork child of `fork_sandbox`.

System calls are modelled by traces of their results: a pipe read is a
list of `ReadEv` events (the bytes a `read` call returned, an interrupted
call, or another errno), and the loops of the source recurse over such a
trace.  An empty trace means the loop is still blocked in the kernel, so
the loop functions return `Option`: `none` is "still running".
-/

/-! ## Framed pipe channel: read_count (main.rs lines 138-157) -/

/-- Result of one `read(fd, &mut buf[idx..])` system call: the bytes it
returned (a zero-length list is the 0-return of a closed peer), an EINTR
interruption, or another errno. -/
inductive ReadEv where
  | bytes (bs : List Nat)
  | eintr
  | errR (e : Nat)
deriving DecidableEq, Repr

/-- Return value of `read_count`: the filled buffer, or the error built
from a non-EINTR errno. -/
inductive ReadResult where
  | ok (buf : List Nat)
  | error (e : Nat)
deriving DecidableEq, Repr

/-- The loop of `read_count`: `acc` is the prefix of the buffer filled so
far (the Rust `buf[0..idx]`, with `idx = acc.length`).  On `Ok(l)` the
code does `idx += l` and returns `Ok(buf)` when `idx == count || l == 0`;
the unfilled tail of the preallocated buffer is still zero, hence the
`List.replicate` padding.  On EINTR it continues; on any other errno it
returns the error. -/
def readCountLoop (count : Nat) (acc : List Nat) : List ReadEv → Option ReadResult
  | [] => none
  | .eintr :: rest => readCountLoop count acc rest
  | .errR e :: _ => some (.error e)
  | .bytes bs :: rest =>
    if (acc ++ bs).length = count ∨ bs.length = 0 then
      some (.ok ((acc ++ bs) ++ List.replicate (count - (acc ++ bs).length) 0))
    else
      readCountLoop count (acc ++ bs) rest

/-- `read_count(fd, count)` run against a trace of read results. -/
def read_count (count : Nat) (events : List ReadEv) : Option ReadResult :=
  readCountLoop count [] events

/-- A trace is well-formed for `read_count` when no read call returns more
bytes than the slice `&mut buf[idx..]` it was handed could hold. -/
def wfRead (count : Nat) (idx : Nat) : List ReadEv → Bool
  | [] => true
  | .eintr :: rest => wfRead count idx rest
  | .errR _ :: rest => wfRead count idx rest
  | .bytes bs :: rest => decide (idx + bs.length ≤ count) && wfRead count (idx + bs.length) rest

/-- Every read call of the trace delivered at least one byte. -/
def readMin1 : List ReadEv → Bool
  | [] => true
  | .bytes bs :: rest => !bs.isEmpty && readMin1 rest
  | _ :: rest => readMin1 rest

/-- All bytes delivered by the trace, in order. -/
def readChunks : List ReadEv → List Nat
  | [] => []
  | .bytes bs :: rest => bs ++ readChunks rest
  | _ :: rest => readChunks rest

/-! ## Framed pipe channel: write_all (main.rs lines 159-178) -/

/-- Result of one `write(fd, &buf[idx..])` system call: the number of
bytes it accepted, an EINTR interruption, or another errno. -/
inductive WriteEv where
  | wrote (l : Nat)
  | eintr
  | errW (e : Nat)
deriving DecidableEq, Repr

/-- Return value of `write_all`. -/
inductive WriteResult where
  | ok
  | error (e : Nat)
deriving DecidableEq, Repr

/-- The loop of `write_all`: `idx` bytes of the buffer are already
written; on `Ok(l)` the code does `idx += l` and returns when
`idx == count`; EINTR continues; any other errno is returned. -/
def writeAllLoop (count : Nat) (idx : Nat) : List WriteEv → Option WriteResult
  | [] => none
  | .eintr :: rest => writeAllLoop count idx rest
  | .errW e :: _ => some (.error e)
  | .wrote l :: rest =>
    if idx + l = count then some .ok else writeAllLoop count (idx + l) rest

/-- `write_all(fd, buf)` with `count = buf.len()`, run against a trace of
write results. -/
def write_all (count : Nat) (events : List WriteEv) : Option WriteResult :=
  writeAllLoop count 0 events

/-- Every write call of the trace accepted at least one byte. -/
def writeMin1 : List WriteEv → Bool
  | [] => true
  | .wrote l :: rest => decide (1 ≤ l) && writeMin1 rest
  | _ :: rest => writeMin1 rest

/-- Total number of bytes the write calls of a trace accepted. -/
def writeSum : List WriteEv → Nat
  | [] => 0
  | .wrote l :: rest => l + writeSum rest
  | _ :: rest => writeSum rest

/-! ## Request frame decoding (main.rs lines 118-127) and the spec's
encoding.  Byte strings are `List Nat`. -/

/-- Zero-pad a byte string on the right up to length `n`. -/
def padTo (n : Nat) (xs : List Nat) : List Nat :=
  xs ++ List.replicate (n - xs.length) 0

/-- Modelled from the spec: the client-side encoding of a Request Frame
(the encoder lives in the sandbox module, outside `main.rs`).  Bytes
[0,64) hold the sandbox identifier, zero-padded; bytes [64,512) hold the
NUL-terminated network-namespace path (an immediate NUL for the empty
path) followed by zero padding. -/
def encode_request (id netns : List Nat) : List Nat :=
  padTo 64 id ++ padTo 448 netns

/-- The serving loop's identifier field: `buffer[0..64]` taken verbatim
(zero padding included). -/
def decode_id (frame : List Nat) : List Nat :=
  frame.take 64

/-- Index scan of `for (i, &b) in buffer.iter().enumerate().take(512).skip(64)`:
the first index at or after `i` whose byte is zero. -/
def zeroIndexSearch (i : Nat) : List Nat → Option Nat
  | [] => none
  | b :: rest => if b = 0 then some i else zeroIndexSearch (i + 1) rest

/-- `zero_index` of the serving loop: initialised to 64 and set to the
first zero byte found in `buffer[64..512]`; stays 64 when no zero byte
occurs there. -/
def zero_index (frame : List Nat) : Nat :=
  match zeroIndexSearch 64 ((frame.drop 64).take 448) with
  | some i => i
  | none => 64

/-- The serving loop's network-namespace field: `buffer[64..zero_index]`. -/
def decode_netns (frame : List Nat) : List Nat :=
  (frame.drop 64).take (zero_index frame - 64)

/-- Drop the trailing zero bytes of a byte string (the padding-insensitive
view of the identifier field). -/
def dropTrailingZeros (xs : List Nat) : List Nat :=
  (xs.reverse.dropWhile (fun b => b == 0)).reverse

/-! ## The serving loop of the subreaper (main.rs lines 117-130) -/

/-- `i32::to_le_bytes` of the pid written as the Response Frame. -/
def i32ToLeBytes (n : Int) : List Nat :=
  [(n % 2 ^ 32).toNat % 256, (n % 2 ^ 32).toNat / 2 ^ 8 % 256,
   (n % 2 ^ 32).toNat / 2 ^ 16 % 256, (n % 2 ^ 32).toNat / 2 ^ 24 % 256]

/-- The serving loop: for each 512-byte Request Frame received, decode the
identifier and network-namespace path, run `fork_sandbox` (the factory,
abstracted as a function of the decoded fields) synchronously, and send
the pid's 4 little-endian bytes as the response, before the next frame is
touched. -/
def serve_loop (factory : List Nat → List Nat → Int) : List (List Nat) → List (List Nat)
  | [] => []
  | frame :: rest =>
    i32ToLeBytes (factory (decode_id frame) (decode_netns frame)) :: serve_loop factory rest

/-! ## Close-on-exec bookkeeping of fork_sandbox_parent (main.rs 91-136) -/

/-- The four descriptors of the two pipes: request read/write end,
response read/write end. -/
inductive PipeFd where
  | reqr
  | reqw
  | respr
  | respw
deriving DecidableEq, Repr

/-- Per-descriptor state in one process: still open, and carrying the
FD_CLOEXEC flag. -/
structure FdFlags where
  isOpen : Bool
  cloexec : Bool
deriving DecidableEq, Repr

/-- The descriptor operations `fork_sandbox_parent` performs: `drop` of an
owned fd closes it; `fcntl(fd, F_SETFD(FD_CLOEXEC))` sets the flag. -/
inductive FdOp where
  | dropFd (fd : PipeFd)
  | setCloexec (fd : PipeFd)
deriving DecidableEq, Repr

/-- `pipe()` creates both ends open and without FD_CLOEXEC. -/
def initialFdState : PipeFd → FdFlags := fun _ => ⟨true, false⟩

/-- Apply one descriptor operation to the per-process descriptor table. -/
def applyFdOp (st : PipeFd → FdFlags) : FdOp → PipeFd → FdFlags
  | .dropFd fd => fun x => if x = fd then ⟨false, (st x).cloexec⟩ else st x
  | .setCloexec fd => fun x => if x = fd then ⟨(st x).isOpen, true⟩ else st x

/-- Run a list of descriptor operations from the post-`pipe()` state. -/
def runFdOps (ops : List FdOp) : PipeFd → FdFlags :=
  ops.foldl applyFdOp initialFdState

/-- What the parent branch of `fork_sandbox_parent` does to the four
descriptors: drop `reqr` and `respw` (lines 98-99), then set FD_CLOEXEC
on `reqw` and `respr` (lines 133-134). -/
def parentFdOps : List FdOp :=
  [.dropFd .reqr, .dropFd .respw, .setCloexec .reqw, .setCloexec .respr]

/-- What the child (subreaper) branch does to the four descriptors: drop
`reqw` and `respr` (lines 102-103); it then enters the serving loop and
never reaches the two `fcntl` calls of lines 133-134. -/
def childFdOps : List FdOp :=
  [.dropFd .reqw, .dropFd .respr]

/-! ## The two reap loops (main.rs lines 241-259 and 281-305) -/

/-- Result of one `waitpid(-1, WNOHANG)` call: a normally exited child
with its status, a signal-terminated child with the signal number, the
ECHILD errno (no children at all), `StillAlive` (children exist but none
changed state), another errno, or another `WaitStatus` variant (stopped,
continued, ...). -/
inductive WaitEv where
  | exited (pid : Int) (status : Int)
  | signaled (pid : Int) (sig : Int)
  | echild
  | stillAlive
  | errOther (e : Nat)
  | otherStatus
deriving DecidableEq, Repr

/-- Log lines the handlers emit: the debug line of a reaped exit, the
debug line of a signal termination, and the warning on an unexpected wait
errno. -/
inductive LogEv where
  | exitNotice (pid status : Int)
  | termNotice (pid sig : Int)
  | warnErr (e : Nat)
deriving DecidableEq, Repr

/-- The SIGCHLD branch of the async `handle_signals` loop run against a
trace of wait results: first component the `(pid, exit_code)` pairs sent
to `monitor_notify_by_pid` in order, second component the log lines.  A
signal-terminated child is notified with `128 + sig`; ECHILD or
`StillAlive` breaks the loop; any other errno only warns; any other
`WaitStatus` does nothing. -/
def handleSigchldPass : List WaitEv → List (Int × Int) × List LogEv
  | [] => ([], [])
  | .exited p s :: rest =>
    ((p, s) :: (handleSigchldPass rest).1, .exitNotice p s :: (handleSigchldPass rest).2)
  | .signaled p g :: rest =>
    ((p, 128 + g) :: (handleSigchldPass rest).1, .termNotice p g :: (handleSigchldPass rest).2)
  | .echild :: _ => ([], [])
  | .stillAlive :: _ => ([], [])
  | .errOther e :: rest => ((handleSigchldPass rest).1, .warnErr e :: (handleSigchldPass rest).2)
  | .otherStatus :: rest => handleSigchldPass rest

/-- `sandbox_parent_handle_signals`, the signal-handler-context reap loop
of the subreaper, run against a trace of wait results: it only logs.
Exited and Signaled children are logged; ECHILD or `StillAlive` breaks;
any other errno warns and the loop continues; other statuses do nothing. -/
def sandboxParentReapPass : List WaitEv → List LogEv
  | [] => []
  | .exited p s :: rest => .exitNotice p s :: sandboxParentReapPass rest
  | .signaled p g :: rest => .termNotice p g :: sandboxParentReapPass rest
  | .echild :: _ => []
  | .stillAlive :: _ => []
  | .errOther e :: rest => .warnErr e :: sandboxParentReapPass rest
  | .otherStatus :: rest => sandboxParentReapPass rest

/-! ## The second-fork child of fork_sandbox (main.rs lines 202-216) -/

/-- The namespace kinds named by the `CloneFlags` the source uses. -/
inductive NsFlag where
  | newipc
  | newuts
  | newpid
  | newnet
deriving DecidableEq, Repr

/-- Observable actions of the second-fork child: set the process display
name, open a file, join namespaces via `setns` with the given flags,
suspend forever in `loop { pause() }`, or exit the process. -/
inductive ChildAct where
  | setComm (name : String)
  | openFile (path : String)
  | joinNs (flags : List NsFlag)
  | suspendForever
  | exitProc (code : Int)
deriving DecidableEq, Repr

/-- The action trace of the second-fork child of `fork_sandbox`: set the
display name to `[sandbox-<id>]`; when the network-namespace path is
non-empty, open it and `setns` with `CLONE_NEWNET` alone; then
`loop { pause() }` forever. -/
def sandbox_child_actions (id netns : String) : List ChildAct :=
  [.setComm ("[sandbox-" ++ id ++ "]")] ++
    (if netns.isEmpty then [] else [.openFile netns, .joinNs [.newnet]]) ++
    [.suspendForever]

/-- Does the trace join any namespace? -/
def joinsAnyNs (acts : List ChildAct) : Bool :=
  acts.any fun a => match a with | .joinNs _ => true | _ => false

/-- Every namespace join of the trace switches exactly the network
namespace and nothing else. -/
def joinsOnlyNewnet (acts : List ChildAct) : Bool :=
  acts.all fun a => match a with | .joinNs fl => fl == [.newnet] | _ => true

/-- Does the trace open the given path? -/
def opensPath (acts : List ChildAct) (p : String) : Bool :=
  acts.any fun a => match a with | .openFile q => q == p | _ => false

/-- Does the trace ever exit the process? -/
def everExits (acts : List ChildAct) : Bool :=
  acts.any fun a => match a with | .exitProc _ => true | _ => false

/-- The last action of a trace. -/
def lastAct : List ChildAct → Option ChildAct
  | [] => none
  | [a] => some a
  | _ :: b :: rest => lastAct (b :: rest)

/-! ## Helper lemmas -/

/-- Any number of EINTR results is skipped by the `read_count` loop
without touching the bytes accumulated so far. -/
theorem readCountLoop_eintr_replicate (count : Nat) (acc : List Nat) (n : Nat)
    (rest : List ReadEv) :
    readCountLoop count acc (List.replicate n ReadEv.eintr ++ rest)
      = readCountLoop count acc rest := by
  induction n with
  | zero => rfl
  | succ k ih => simpa [List.replicate_succ, readCountLoop] using ih

/-- Any number of EINTR results is skipped by the `write_all` loop
without touching the write offset. -/
theorem writeAllLoop_eintr_replicate (count idx n : Nat) (rest : List WriteEv) :
    writeAllLoop count idx (List.replicate n WriteEv.eintr ++ rest)
      = writeAllLoop count idx rest := by
  induction n with
  | zero => rfl
  | succ k ih => simpa [List.replicate_succ, writeAllLoop] using ih

/-- On a well-formed trace, a successful `read_count` always hands back a
buffer of exactly the requested length. -/
theorem readCountLoop_ok_length (count : Nat) :
    ∀ (tr : List ReadEv) (acc buf : List Nat),
      wfRead count acc.length tr = true →
      readCountLoop count acc tr = some (.ok buf) →
      buf.length = count := by
  intro tr
  induction tr with
  | nil =>
    intro acc buf _ h
    simp [readCountLoop] at h
  | cons ev rest ih =>
    intro acc buf hwf hrun
    cases ev with
    | eintr =>
      exact ih acc buf (by simpa [wfRead] using hwf) (by simpa [readCountLoop] using hrun)
    | errR e => simp [readCountLoop] at hrun
    | bytes bs =>
      simp only [wfRead, Bool.and_eq_true, decide_eq_true_eq] at hwf
      obtain ⟨hle, hwf2⟩ := hwf
      by_cases hc : (acc ++ bs).length = count ∨ bs.length = 0
      · simp only [readCountLoop, if_pos hc, Option.some.injEq, ReadResult.ok.injEq] at hrun
        subst hrun
        simp only [List.length_append, List.length_replicate]
        omega
      · have hrun2 : readCountLoop count (acc ++ bs) rest = some (.ok buf) := by
          simp only [readCountLoop] at hrun
          rwa [if_neg hc] at hrun
        exact ih (acc ++ bs) buf (by simpa [List.length_append] using hwf2) hrun2

/-- When every read call delivers at least one byte, a successful
`read_count` buffer is the bytes delivered, in order and nothing else: it
is a prefix of the already-filled part followed by the trace's bytes. -/
theorem readCountLoop_ok_prefix (count : Nat) :
    ∀ (tr : List ReadEv) (acc buf : List Nat),
      readMin1 tr = true →
      readCountLoop count acc tr = some (.ok buf) →
      buf <+: acc ++ readChunks tr := by
  intro tr
  induction tr with
  | nil =>
    intro acc buf _ h
    simp [readCountLoop] at h
  | cons ev rest ih =>
    intro acc buf hmin hrun
    cases ev with
    | eintr =>
      have h := ih acc buf (by simpa [readMin1] using hmin) (by simpa [readCountLoop] using hrun)
      simpa [readChunks] using h
    | errR e => simp [readCountLoop] at hrun
    | bytes bs =>
      simp only [readMin1, Bool.and_eq_true] at hmin
      obtain ⟨hbs, hmin2⟩ := hmin
      have hbsne : bs ≠ [] := by cases bs <;> simp_all
      by_cases hc : (acc ++ bs).length = count ∨ bs.length = 0
      · have hlen : (acc ++ bs).length = count := by
          rcases hc with h | h
          · exact h
          · exact absurd (List.length_eq_zero.mp h) hbsne
        simp only [readCountLoop, if_pos hc, Option.some.injEq, ReadResult.ok.injEq] at hrun
        subst hrun
        rw [hlen]
        simp only [Nat.sub_self, List.replicate_zero, List.append_nil, readChunks]
        exact ⟨readChunks rest, by simp⟩
      · have hrun2 : readCountLoop count (acc ++ bs) rest = some (.ok buf) := by
          simp only [readCountLoop] at hrun
          rwa [if_neg hc] at hrun
        have h := ih (acc ++ bs) buf hmin2 hrun2
        simpa [readChunks, List.append_assoc] using h

/-- A successful `write_all` consumed a prefix of the trace whose write
calls transferred exactly the remaining byte count. -/
theorem writeAllLoop_ok_sum (count : Nat) :
    ∀ (tr : List WriteEv) (idx : Nat),
      writeAllLoop count idx tr = some .ok →
      ∃ k, idx + writeSum (tr.take k) = count := by
  intro tr
  induction tr with
  | nil =>
    intro idx h
    simp [writeAllLoop] at h
  | cons ev rest ih =>
    intro idx hrun
    cases ev with
    | eintr =>
      obtain ⟨k, hk⟩ := ih idx (by simpa [writeAllLoop] using hrun)
      exact ⟨k + 1, by simpa [List.take_succ_cons, writeSum] using hk⟩
    | errW e => simp [writeAllLoop] at hrun
    | wrote l =>
      by_cases hc : idx + l = count
      · exact ⟨1, by simpa [writeSum] using hc⟩
      · have hrun2 : writeAllLoop count (idx + l) rest = some .ok := by
          simp only [writeAllLoop] at hrun
          rwa [if_neg hc] at hrun
        obtain ⟨k, hk⟩ := ih (idx + l) hrun2
        exact ⟨k + 1, by simp only [List.take_succ_cons, writeSum] ; omega⟩

/-- A byte string without zero bytes makes the index scan come up empty. -/
theorem zeroIndexSearch_no_zero :
    ∀ (xs : List Nat) (i : Nat), xs.contains 0 = false → zeroIndexSearch i xs = none := by
  intro xs
  induction xs with
  | nil => intro i _; rfl
  | cons b rest ih =>
    intro i h
    simp only [List.contains_cons, Bool.or_eq_false_iff] at h
    obtain ⟨hb, hrest⟩ := h
    have hbne : b ≠ 0 := by
      intro hb0
      subst hb0
      simp at hb
    simp only [zeroIndexSearch, if_neg hbne]
    exact ih (i + 1) hrest

/-- The index scan finds the terminating zero right after a zero-free
byte string. -/
theorem zeroIndexSearch_append_zero :
    ∀ (p : List Nat) (i : Nat) (t : List Nat), p.contains 0 = false →
      zeroIndexSearch i (p ++ 0 :: t) = some (i + p.length) := by
  intro p
  induction p with
  | nil => intro i t _; simp [zeroIndexSearch]
  | cons b rest ih =>
    intro i t h
    simp only [List.contains_cons, Bool.or_eq_false_iff] at h
    obtain ⟨hb, hrest⟩ := h
    have hbne : b ≠ 0 := by
      intro hb0
      subst hb0
      simp at hb
    simp only [List.cons_append, zeroIndexSearch, if_neg hbne, List.append_eq]
    rw [ih (i + 1) t hrest]
    simp only [List.length_cons]
    congr 1
    omega

/-- Appended zero padding is invisible to the padding-insensitive view. -/
theorem dropTrailingZeros_append_replicate (xs : List Nat) (k : Nat) :
    dropTrailingZeros (xs ++ List.replicate k 0) = dropTrailingZeros xs := by
  unfold dropTrailingZeros
  rw [List.reverse_append, List.reverse_replicate]
  congr 1
  induction k with
  | zero => simp
  | succ m ih => simp [List.replicate_succ, List.dropWhile]

/-- A truncated transfer (the peer closes after `ds`, fewer bytes than
requested) yields the same successful buffer as a complete transfer of
`ds` followed by zero bytes. -/
theorem read_count_truncated (count : Nat) (ds : List Nat) (h : ds.length < count) :
    read_count count [ReadEv.bytes ds, ReadEv.bytes []]
      = some (.ok (ds ++ List.replicate (count - ds.length) 0)) ∧
    read_count count [ReadEv.bytes (ds ++ List.replicate (count - ds.length) 0)]
      = some (.ok (ds ++ List.replicate (count - ds.length) 0)) := by
  constructor
  · unfold read_count
    by_cases hz : ds.length = 0
    · have hc : (([] : List Nat) ++ ds).length = count ∨ ds.length = 0 := Or.inr hz
      simp only [readCountLoop, if_pos hc]
      simp only [List.nil_append, Option.some.injEq, ReadResult.ok.injEq]
    · have hc : ¬((([] : List Nat) ++ ds).length = count ∨ ds.length = 0) := by
        simp only [List.nil_append]
        omega
      simp only [readCountLoop]
      rw [if_neg hc]
      have hc2 : ((([] : List Nat) ++ ds ++ []).length = count ∨ ([] : List Nat).length = 0) :=
        Or.inr rfl
      rw [if_pos hc2]
      simp only [List.nil_append, List.append_nil, Option.some.injEq, ReadResult.ok.injEq]
  · unfold read_count
    have hlen : (([] : List Nat) ++ (ds ++ List.replicate (count - ds.length) 0)).length
        = count := by
      simp only [List.nil_append, List.length_append, List.length_replicate]
      omega
    have hc : (([] : List Nat) ++ (ds ++ List.replicate (count - ds.length) 0)).length = count
        ∨ (ds ++ List.replicate (count - ds.length) 0).length = 0 := Or.inl hlen
    simp only [readCountLoop, if_pos hc]
    rw [hlen]
    simp only [List.nil_append, Nat.sub_self, List.replicate_zero, List.append_nil]

/-- The serving loop is the in-order map of the per-request response over
the received frames. -/
theorem serve_loop_eq_map (factory : List Nat → List Nat → Int) :
    ∀ reqs : List (List Nat),
      serve_loop factory reqs
        = reqs.map (fun f => i32ToLeBytes (factory (decode_id f) (decode_netns f))) := by
  intro reqs
  induction reqs with
  | nil => rfl
  | cons frame rest ih => simp [serve_loop, ih]

/-- A Response Frame is exactly 4 bytes. -/
theorem i32ToLeBytes_length (n : Int) : (i32ToLeBytes n).length = 4 := rfl

/-! ## Claim theorems -/

/-- Claim C1 (against the code): `read_count` does NOT report a zero-byte
read (closed peer) as a channel-closed error.  Evaluating the code at the
failing input — the peer delivers 3 of 4 requested bytes and then closes,
so the next read returns zero bytes — the loop terminates but returns a
successful result whose missing tail is zero bytes, a silent success. -/
theorem read_count_closed_peer_silent_success :
    read_count 4 [ReadEv.bytes [1, 2, 3], ReadEv.bytes []]
      = some (.ok [1, 2, 3, 0]) := by
  decide

/-- Claim C2 counterexample: the claim says a wait error other than
ECHILD stops the reap pass, so after `errOther 22` (EINVAL) the later
`exited 5 7` result would never be processed.  In the code both loops
keep going: the async pass still notifies the monitor of `(5, 7)`, and
the signal-handler pass logs the warning and then the exit notice. -/
theorem reap_error_continues_counterexample :
    (handleSigchldPass [WaitEv.errOther 22, WaitEv.exited 5 7]).1 = [(5, 7)] ∧
    sandboxParentReapPass [WaitEv.errOther 22, WaitEv.exited 5 7]
      = [LogEv.warnErr 22, LogEv.exitNotice 5 7] := by
  refine ⟨?_, ?_⟩ <;> decide

/-- Claim C2 as amended: in both reap loops a no-children (ECHILD) result
or a no-pending-status (`StillAlive`) result stops the loop, while every
other wait error is logged and the loop CONTINUES with the next
non-blocking wait — it does not stop. -/
theorem reap_stop_and_error_continue (e : Nat) (rest : List WaitEv) :
    sandboxParentReapPass (.errOther e :: rest) = .warnErr e :: sandboxParentReapPass rest ∧
    (handleSigchldPass (.errOther e :: rest)).1 = (handleSigchldPass rest).1 ∧
    (handleSigchldPass (.errOther e :: rest)).2 = .warnErr e :: (handleSigchldPass rest).2 ∧
    sandboxParentReapPass (.echild :: rest) = [] ∧
    sandboxParentReapPass (.stillAlive :: rest) = [] ∧
    handleSigchldPass (.echild :: rest) = ([], []) ∧
    handleSigchldPass (.stillAlive :: rest) = ([], []) :=
  ⟨rfl, rfl, rfl, rfl, rfl, rfl, rfl⟩

/-- Claim C3 counterexample: the claim says all four pipe descriptors are
marked close-on-exec, but the two ends the subreaper child keeps — the
request pipe's read end and the response pipe's write end — stay open
with the flag unset (the child never reaches the two `fcntl` calls). -/
theorem cloexec_child_ends_unset_counterexample :
    runFdOps childFdOps PipeFd.reqr = ⟨true, false⟩ ∧
    runFdOps childFdOps PipeFd.respw = ⟨true, false⟩ := by
  decide

/-- Claim C3 as amended: after `fork_sandbox_parent` establishes the
pipes, only the two descriptors retained by the main process — the
request write end and the response read end — are marked close-on-exec;
the subreaper child's retained ends are open without the flag, and each
process has dropped the other two ends. -/
theorem cloexec_parent_ends_only :
    runFdOps parentFdOps PipeFd.reqw = ⟨true, true⟩ ∧
    runFdOps parentFdOps PipeFd.respr = ⟨true, true⟩ ∧
    runFdOps parentFdOps PipeFd.reqr = ⟨false, false⟩ ∧
    runFdOps parentFdOps PipeFd.respw = ⟨false, false⟩ ∧
    runFdOps childFdOps PipeFd.reqr = ⟨true, false⟩ ∧
    runFdOps childFdOps PipeFd.respw = ⟨true, false⟩ ∧
    runFdOps childFdOps PipeFd.reqw = ⟨false, false⟩ ∧
    runFdOps childFdOps PipeFd.respr = ⟨false, false⟩ := by
  decide

/-- Claim C4: when every read/write call transfers at least one byte, a
successful `read_count` hands back exactly the requested byte count —
precisely the delivered bytes, nothing dropped or re-transferred — a
successful `write_all` transferred exactly the buffer's byte count, and
any number of EINTR results is retried transparently by both loops
without touching the accumulated state. -/
theorem transfer_exact_count_and_eintr_retry (count wcount n widx : Nat)
    (rtrace rrest : List ReadEv) (racc buf : List Nat)
    (wtrace wrest : List WriteEv)
    (hwf : wfRead count 0 rtrace = true)
    (hmin : readMin1 rtrace = true)
    (hok : read_count count rtrace = some (.ok buf))
    (_hwmin : writeMin1 wtrace = true)
    (hwok : write_all wcount wtrace = some .ok) :
    buf.length = count ∧
    buf <+: readChunks rtrace ∧
    (∃ k, writeSum (wtrace.take k) = wcount) ∧
    readCountLoop count racc (List.replicate n ReadEv.eintr ++ rrest)
      = readCountLoop count racc rrest ∧
    writeAllLoop wcount widx (List.replicate n WriteEv.eintr ++ wrest)
      = writeAllLoop wcount widx wrest := by
  refine ⟨readCountLoop_ok_length count rtrace [] buf hwf hok, ?_, ?_,
    readCountLoop_eintr_replicate count racc n rrest,
    writeAllLoop_eintr_replicate wcount widx n wrest⟩
  · have h := readCountLoop_ok_prefix count rtrace [] buf hmin hok
    simpa using h
  · have h := writeAllLoop_ok_sum wcount wtrace 0 hwok
    simpa using h

/-- Witness for claim C4 at a concrete instance: a 2-byte read served in
two 1-byte fragments, a 2-byte write accepted in two 1-byte calls, and
three EINTR results in front of each loop. -/
theorem transfer_exact_count_and_eintr_retry_witness :
    wfRead 2 0 [ReadEv.bytes [5], ReadEv.bytes [6]] = true ∧
    readMin1 [ReadEv.bytes [5], ReadEv.bytes [6]] = true ∧
    read_count 2 [ReadEv.bytes [5], ReadEv.bytes [6]] = some (.ok [5, 6]) ∧
    writeMin1 [WriteEv.wrote 1, WriteEv.wrote 1] = true ∧
    write_all 2 [WriteEv.wrote 1, WriteEv.wrote 1] = some .ok ∧
    (([5, 6] : List Nat).length = 2 ∧
      ([5, 6] : List Nat) <+: readChunks [ReadEv.bytes [5], ReadEv.bytes [6]] ∧
      (∃ k, writeSum ([WriteEv.wrote 1, WriteEv.wrote 1].take k) = 2) ∧
      readCountLoop 2 [] (List.replicate 3 ReadEv.eintr ++ [])
        = readCountLoop 2 [] [] ∧
      writeAllLoop 2 0 (List.replicate 3 WriteEv.eintr ++ [])
        = writeAllLoop 2 0 []) :=
  ⟨by decide, by decide, by decide, by decide, by decide,
    transfer_exact_count_and_eintr_retry 2 2 3 0 [ReadEv.bytes [5], ReadEv.bytes [6]] [] [] [5, 6]
      [WriteEv.wrote 1, WriteEv.wrote 1] [] (by decide) (by decide) (by decide)
      (by decide) (by decide)⟩

/-- Claim C5: encoding an identifier of at most 64 bytes and a (zero-free)
network-namespace path of at most 446 bytes into a 512-byte Request Frame
and decoding it as the serving loop does recovers the identifier up to
trailing zero padding and the path exactly. -/
theorem request_frame_roundtrip (id netns : List Nat)
    (hid : id.length ≤ 64) (hpath : netns.length ≤ 446)
    (hnz : netns.contains 0 = false) :
    dropTrailingZeros (decode_id (encode_request id netns)) = dropTrailingZeros id ∧
    decode_netns (encode_request id netns) = netns := by
  have hlenid : (padTo 64 id).length = 64 := by
    simp only [padTo, List.length_append, List.length_replicate]
    omega
  have hdrop : (encode_request id netns).drop 64 = padTo 448 netns := by
    unfold encode_request
    exact List.drop_left' hlenid
  have htake : (encode_request id netns).take 64 = padTo 64 id := by
    unfold encode_request
    exact List.take_left' hlenid
  constructor
  · rw [decode_id, htake]
    unfold padTo
    exact dropTrailingZeros_append_replicate id _
  · have hlen448 : (padTo 448 netns).length = 448 := by
      simp only [padTo, List.length_append, List.length_replicate]
      omega
    have hsplit : padTo 448 netns = netns ++ 0 :: List.replicate (447 - netns.length) 0 := by
      unfold padTo
      congr 1
      have h448 : 448 - netns.length = (447 - netns.length) + 1 := by omega
      rw [h448, List.replicate_succ]
    unfold decode_netns zero_index
    rw [hdrop, List.take_of_length_le (le_of_eq hlen448), hsplit,
      zeroIndexSearch_append_zero netns 64 _ hnz]
    simp only [Nat.add_sub_cancel_left]
    exact List.take_left netns _

/-- Witness for claim C5 at a concrete instance: identifier "abc" and
path "/tmp". -/
theorem request_frame_roundtrip_witness :
    ([97, 98, 99] : List Nat).length ≤ 64 ∧
    ([47, 116, 109, 112] : List Nat).length ≤ 446 ∧
    ([47, 116, 109, 112] : List Nat).contains 0 = false ∧
    (dropTrailingZeros (decode_id (encode_request [97, 98, 99] [47, 116, 109, 112]))
        = dropTrailingZeros [97, 98, 99] ∧
      decode_netns (encode_request [97, 98, 99] [47, 116, 109, 112]) = [47, 116, 109, 112]) :=
  ⟨by decide, by decide, by decide,
    request_frame_roundtrip [97, 98, 99] [47, 116, 109, 112] (by decide) (by decide) (by decide)⟩

/-- Claim C6: the async SIGCHLD pass notifies the monitor of a normally
exited child with its exit status unchanged (status 7 reported as 7) and
of a signal-terminated child with 128 plus the signal number (signal 9
reported as 137). -/
theorem reap_exit_code_convention (p s g : Int) (rest : List WaitEv) :
    (handleSigchldPass (.exited p s :: rest)).1 = (p, s) :: (handleSigchldPass rest).1 ∧
    (handleSigchldPass (.signaled p g :: rest)).1 = (p, 128 + g) :: (handleSigchldPass rest).1 ∧
    (handleSigchldPass [.exited p 7]).1 = [(p, 7)] ∧
    (handleSigchldPass [.signaled p 9]).1 = [(p, 137)] := by
  refine ⟨rfl, rfl, rfl, ?_⟩
  norm_num [handleSigchldPass]

/-- Claim C7: the serving loop answers each Request Frame with exactly
one Response Frame of exactly 4 bytes, in send order: it is the in-order
map of the response over the frames, the response list has one entry per
request, and the response to the first frame is produced (factory run
synchronously) before any later frame is touched. -/
theorem serve_loop_one_response_per_request_in_order
    (factory : List Nat → List Nat → Int) (frame : List Nat)
    (reqs rest : List (List Nat)) :
    serve_loop factory reqs
        = reqs.map (fun f => i32ToLeBytes (factory (decode_id f) (decode_netns f))) ∧
    (serve_loop factory reqs).length = reqs.length ∧
    ((serve_loop factory reqs).all fun r => r.length == 4) = true ∧
    serve_loop factory (frame :: rest)
        = i32ToLeBytes (factory (decode_id frame) (decode_netns frame))
            :: serve_loop factory rest := by
  refine ⟨serve_loop_eq_map factory reqs, ?_, ?_, rfl⟩
  · rw [serve_loop_eq_map factory reqs, List.length_map]
  · rw [serve_loop_eq_map factory reqs, List.all_eq_true]
    intro r hr
    rcases List.mem_map.mp hr with ⟨f, _, hf⟩
    subst hf
    rfl

/-- Claim C8: the second-fork child joins a namespace via `setns` exactly
when the supplied network-namespace path is non-empty — opening that path
and switching only the network namespace (`CLONE_NEWNET` alone) — and in
both cases it ends suspended forever in `loop { pause() }`, never exiting
on its own. -/
theorem sandbox_child_joins_only_netns_and_suspends (id netns : String) :
    joinsAnyNs (sandbox_child_actions id netns) = !netns.isEmpty ∧
    opensPath (sandbox_child_actions id netns) netns = !netns.isEmpty ∧
    joinsOnlyNewnet (sandbox_child_actions id netns) = true ∧
    everExits (sandbox_child_actions id netns) = false ∧
    lastAct (sandbox_child_actions id netns) = some .suspendForever := by
  by_cases h : netns.isEmpty
  · simp [sandbox_child_actions, h, joinsAnyNs, opensPath, joinsOnlyNewnet, everExits,
      lastAct]
  · simp [sandbox_child_actions, h, joinsAnyNs, opensPath, joinsOnlyNewnet, everExits,
      lastAct]

/-- Claim C9: a 512-byte Request Frame with no zero byte anywhere in
bytes [64,512) decodes to the empty network-namespace path — `zero_index`
stays at its initial value 64 — rather than failing or reading the 448
non-zero bytes as a path. -/
theorem decode_no_zero_yields_empty_netns (frame : List Nat)
    (_hlen : frame.length = 512)
    (hnz : ((frame.drop 64).take 448).contains 0 = false) :
    decode_netns frame = [] := by
  unfold decode_netns zero_index
  rw [zeroIndexSearch_no_zero _ 64 hnz]
  simp

set_option maxRecDepth 8000 in
/-- Witness for claim C9 at a concrete instance: the all-ones 512-byte
frame. -/
theorem decode_no_zero_yields_empty_netns_witness :
    (List.replicate 512 1 : List Nat).length = 512 ∧
    ((((List.replicate 512 1 : List Nat)).drop 64).take 448).contains 0 = false ∧
    decode_netns (List.replicate 512 1) = [] :=
  ⟨by decide, by decide,
    decode_no_zero_yields_empty_netns (List.replicate 512 1) (by decide) (by decide)⟩

/-- Claim C10: a successful `read_count` buffer always has exactly the
requested length, and a transfer truncated by a closed peer after `ds`
bytes yields the very same successful result as a complete transfer of
`ds` followed by zero bytes — the two are indistinguishable to the
caller. -/
theorem read_count_ok_length_and_truncation_indistinguishable
    (count : Nat) (tr : List ReadEv) (buf ds : List Nat)
    (hwf : wfRead count 0 tr = true)
    (hok : read_count count tr = some (.ok buf))
    (hk : ds.length < count) :
    buf.length = count ∧
    read_count count [ReadEv.bytes ds, ReadEv.bytes []]
      = some (.ok (ds ++ List.replicate (count - ds.length) 0)) ∧
    read_count count [ReadEv.bytes ds, ReadEv.bytes []]
      = read_count count [ReadEv.bytes (ds ++ List.replicate (count - ds.length) 0)] := by
  obtain ⟨h1, h2⟩ := read_count_truncated count ds hk
  exact ⟨readCountLoop_ok_length count tr [] buf hwf hok, h1, h1.trans h2.symm⟩

/-- Witness for claim C10 at a concrete instance: a successful 4-byte
read in two fragments, and a transfer of [1,2,3] truncated by a closed
peer. -/
theorem read_count_ok_length_and_truncation_indistinguishable_witness :
    wfRead 4 0 [ReadEv.bytes [1, 2], ReadEv.bytes [9, 9]] = true ∧
    read_count 4 [ReadEv.bytes [1, 2], ReadEv.bytes [9, 9]] = some (.ok [1, 2, 9, 9]) ∧
    ([1, 2, 3] : List Nat).length < 4 ∧
    (([1, 2, 9, 9] : List Nat).length = 4 ∧
      read_count 4 [ReadEv.bytes [1, 2, 3], ReadEv.bytes []]
        = some (.ok ([1, 2, 3] ++ List.replicate (4 - ([1, 2, 3] : List Nat).length) 0)) ∧
      read_count 4 [ReadEv.bytes [1, 2, 3], ReadEv.bytes []]
        = read_count 4
            [ReadEv.bytes ([1, 2, 3] ++ List.replicate (4 - ([1, 2, 3] : List Nat).length) 0)]) :=
  ⟨by decide, by decide, by decide,
    read_count_ok_length_and_truncation_indistinguishable 4
      [ReadEv.bytes [1, 2], ReadEv.bytes [9, 9]] [1, 2, 9, 9] [1, 2, 3]
      (by decide) (by decide) (by decide)⟩
